import Mathlib

/-!
Verification of the route/middleware composition engine of `path-routify`
(`src/lib/PathRoutifier.js`, `src/index.js`).

The JavaScript source is shallowly embedded below:

* filenames are decoded by a Lean model of the regular expression
  `/^(\^)?(?:(\d+)\.)?([a-z]+)(\.star)?\.js$/` (`sortRouteInfos_`, line 362);
* the in-place array loop of `prioritizeStarRouteInfos_` is modelled by an
  index-based loop over a `List`;
* the recursive walk (`routifyRecurse_`, `handleRouteDirectory_`,
  `handleRouteMiddlewareDirectory_`, `recurseSubDirectories_`,
  `generateRoutes_`) is modelled as a fuel-indexed interpreter over an
  explicit filesystem tree, threading an explicit composer state;
* handler/middleware modules are opaque collaborators, modelled by an
  environment mapping file paths to the callables their factories return.

Callables are identified by `String` tags.
-/

namespace PathRoutify

/-- Callables (express middleware / handler functions) are opaque values;
they are identified by string tags (e.g. the path of the file whose factory
produced them). -/
abbrev Handler := String

/-! ## Filename decoder (`sortRouteInfos_`, step 1) -/

/-- Decoded route descriptor, one per filename matching the route grammar
(`routeInfo` object built at `PathRoutifier.js:366-373`).  The JS fields
`hasMiddlewarePrefix` / `hasNumericPrefix` are called `middlewarePrefixed` /
`numericPrefixed` here. -/
structure RouteInfo where
  fileName : String
  path : String
  middlewarePrefixed : Bool
  numericPrefixed : Bool
  httpMethod : String
  isStar : Bool
deriving Repr, DecidableEq

/-- `[a-z]` of the route-grammar regex. -/
def isLowerAlpha (c : Char) : Bool := 'a' ≤ c && c ≤ 'z'

/-- `\d` of the route-grammar regex. -/
def isDigitCh (c : Char) : Bool := '0' ≤ c && c ≤ '9'

/-- `path.resolve(listing.directory, fileName)` with the directory given as
the list of path segments below the routes root. -/
def pathOf (dir : List String) (fileName : String) : String :=
  String.intercalate "/" (dir ++ [fileName])

/-- Tail of the route-grammar regex after the optional caret and optional
numeric prefix have been consumed: `([a-z]+)(\.star)?\.js$`.  The method
token is the maximal run of lowercase letters (letters cannot contain `.`),
after which the remainder must be exactly `.star.js` or `.js`. -/
def decodeCore (dir : List String) (fileName : String) (hasCaret hasNum : Bool)
    (cs : List Char) : Option RouteInfo :=
  let letters := cs.takeWhile isLowerAlpha
  let rest := cs.dropWhile isLowerAlpha
  if letters.isEmpty then
    none
  else if rest = ".star.js".toList then
    some ⟨fileName, pathOf dir fileName, hasCaret, hasNum, String.mk letters, true⟩
  else if rest = ".js".toList then
    some ⟨fileName, pathOf dir fileName, hasCaret, hasNum, String.mk letters, false⟩
  else
    none

/-- Decoder for the route-grammar regex
`/^(\^)?(?:(\d+)\.)?([a-z]+)(\.star)?\.js$/` (`PathRoutifier.js:362`); `none`
models a non-matching filename (silently ignored by the source).  A nonempty
leading digit run must be followed by `.`; otherwise the digits would have to
be consumed by `[a-z]+`, which is impossible, so the whole match fails. -/
def decodeFileName (dir : List String) (fileName : String) : Option RouteInfo :=
  let cs := fileName.toList
  let hasCaret := decide (cs.head? = some '^')
  let cs1 := if hasCaret then cs.tail else cs
  let digits := cs1.takeWhile isDigitCh
  let afterDigits := cs1.dropWhile isDigitCh
  if digits.isEmpty then
    decodeCore dir fileName hasCaret false cs1
  else
    match afterDigits with
    | '.' :: rest => decodeCore dir fileName hasCaret true rest
    | _ => none

/-! ## Wildcard reordering (`prioritizeStarRouteInfos_`, lines 398-417) -/

/-- The `needToSwap` condition of `prioritizeStarRouteInfos_`
(`PathRoutifier.js:402-407`). -/
def needToSwap (current next : RouteInfo) : Bool :=
  next.isStar &&
  current.httpMethod == next.httpMethod &&
  !current.numericPrefixed &&
  !next.numericPrefixed &&
  !current.middlewarePrefixed &&
  !next.middlewarePrefixed

/-- The in-place array loop of `prioritizeStarRouteInfos_`: index `i` walks
the array; on a swap the two cells are exchanged and `i` additionally skips
the swapped neighbour (`i++` inside the loop body).  The JS array is modelled
by a `List` updated with `List.set`; the loop runs while `i < z - 1` where
`z` is the (constant) array length, i.e. while `i + 1 < length`.  `gas`
bounds the number of remaining iterations so that the recursion is structural
(the wrapper supplies enough gas for the loop to finish on its own test). -/
def prioritizeGo (gas : Nat) (l : List RouteInfo) (i : Nat) : List RouteInfo :=
  match gas with
  | 0 => l
  | gas + 1 =>
    if h : i + 1 < l.length then
      let current := l.get ⟨i, Nat.lt_of_succ_lt h⟩
      let next := l.get ⟨i + 1, h⟩
      if needToSwap current next then
        prioritizeGo gas ((l.set i next).set (i + 1) current) (i + 2)
      else
        prioritizeGo gas l (i + 1)
    else
      l

/-- `prioritizeStarRouteInfos_(routeInfos)` (`PathRoutifier.js:398-417`).
Each loop iteration advances `i` by at least one, so `routeInfos.length`
iterations always suffice. -/
def prioritizeStarRouteInfos (routeInfos : List RouteInfo) : List RouteInfo :=
  prioritizeGo routeInfos.length routeInfos 0

/-- Modelled from the spec (§4.3 step 2): the wildcard reordering described
as a left-to-right scan that swaps exactly the adjacent pairs satisfying the
swap condition and advances past a swapped pair ("only one swap per adjacent
pair, no cascading beyond immediate neighbor"). -/
def wildcardReorderSpec : List RouteInfo → List RouteInfo
  | x :: y :: rest =>
    if needToSwap x y then y :: x :: wildcardReorderSpec rest
    else x :: wildcardReorderSpec (y :: rest)
  | l => l

/-! ## `sortRouteInfos_` (lines 357-389) -/

/-- Errors aborting a `routify` call. `grammar` models the `throw` at
`PathRoutifier.js:376-379` (wildcard combined with middleware prefix);
`fuelExhausted` is an artefact of the fuel-indexed interpreter and never
occurs with sufficient fuel. -/
inductive RoutifyError where
  | grammar (path : String)
  | fuelExhausted
deriving Repr, DecidableEq

/-- Step 1 of `sortRouteInfos_` (`PathRoutifier.js:359-383`): decode every
file into a descriptor, silently dropping non-matching names, and fail fast
on the first descriptor combining the middleware prefix with the wildcard
marker. -/
def buildRouteInfos (dir : List String) : List String → Except RoutifyError (List RouteInfo)
  | [] => .ok []
  | fileName :: rest =>
    match decodeFileName dir fileName with
    | none => buildRouteInfos dir rest
    | some routeInfo =>
      if routeInfo.middlewarePrefixed && routeInfo.isStar then
        .error (.grammar routeInfo.path)
      else
        (buildRouteInfos dir rest).map (routeInfo :: ·)

/-- `sortRouteInfos_(listing)` (`PathRoutifier.js:357-389`): decode, validate,
then reorder wildcard descriptors. -/
def sortRouteInfos (dir : List String) (files : List String) :
    Except RoutifyError (List RouteInfo) :=
  (buildRouteInfos dir files).map prioritizeStarRouteInfos

/-! ## Composer state

`middlewaresStack_` is a JS object mapping an HTTP method to an array of
frames (each frame the array of callables contributed by one middleware
file).  A key absent from the object and a key holding the empty array are
observationally identical for every operation of the class (`pushMwStack_`
only initialises an absent key to `[]` before pushing, `popMwStack_` pops,
and `routeMiddlewares_` copies nothing from an empty array), so the stack is
modelled as a total function with default `[]`. -/

/-- The per-method middleware stack (`middlewaresStack_`). -/
abbrev MwStack := String → List (List Handler)

/-- The registration record handed to the router sink
(`this.router_[httpMethod](routeString, ...routeMiddlewares, ...handlers)`,
`PathRoutifier.js:582`). -/
structure Registration where
  httpMethod : String
  urlPattern : String
  middlewareChain : List Handler
  handlerChain : List Handler
deriving Repr, DecidableEq

/-- The mutable composer state: `middlewaresStack_`, `routeStack_`, and the
sequence of registrations handed to the router so far. -/
structure CState where
  mwStack : MwStack
  routeStack : List String
  emitted : List Registration

/-- The opaque module collaborators: `require(path)(...)` results.
`mwFactory path` is the frame of callables returned by the middleware
factory at `path` (`pushMwRouteInfosOnStack_`, lines 447-465, after
`toArray`).  `routeFactory path chain` is the pair of (the route-middleware
array as left behind by the factory, which received it mutably and may have
removed or reordered entries; the handler chain it returned)
(`generateRoutes_`, lines 560-590). -/
structure ModuleEnv where
  mwFactory : String → List Handler
  routeFactory : String → List Handler → List Handler × List Handler

/-- `pushMwStack_(httpMethod, handlers)` (`PathRoutifier.js:473-478`). -/
def pushMwStack (stack : MwStack) (httpMethod : String) (handlers : List Handler) :
    MwStack :=
  fun k => if k = httpMethod then stack httpMethod ++ [handlers] else stack k

/-- `popMwStack_(httpMethod)` (`PathRoutifier.js:494-496`). -/
def popMwStack (stack : MwStack) (httpMethod : String) : MwStack :=
  fun k => if k = httpMethod then (stack httpMethod).dropLast else stack k

/-- `pushMwRouteInfosOnStack_(mwRouteInfos)` (`PathRoutifier.js:447-465`):
one frame is pushed per descriptor, in listing order. -/
def pushMwRouteInfosOnStack (env : ModuleEnv) (mwRouteInfos : List RouteInfo)
    (stack : MwStack) : MwStack :=
  mwRouteInfos.foldl (fun st routeInfo =>
    pushMwStack st routeInfo.httpMethod (env.mwFactory routeInfo.path)) stack

/-- `popMwRouteInfosOffStack_(mwRouteInfos)` (`PathRoutifier.js:485-487`):
one pop per descriptor, in the same listing order. -/
def popMwRouteInfosOffStack (mwRouteInfos : List RouteInfo) (stack : MwStack) :
    MwStack :=
  mwRouteInfos.foldl (fun st routeInfo => popMwStack st routeInfo.httpMethod) stack

/-- `copyFromMiddlewareStackTo_(target, middlewareSubStack)`
(`PathRoutifier.js:630-636`): the nested `forEach`/`push` loops appending
every callable of every frame to `target`. -/
def copyFromMiddlewareStackTo (target : List Handler)
    (middlewareSubStack : List (List Handler)) : List Handler :=
  middlewareSubStack.foldl (fun tgt mwArray =>
    mwArray.foldl (fun t mw => t ++ [mw]) tgt) target

/-- `routeMiddlewares_(httpMethod)` (`PathRoutifier.js:610-622`).  The JS
guards test key existence (`if (this.middlewaresStack_.all)`); under the
absent-key-is-empty abstraction they are modelled as emptiness tests, which
copy nothing exactly when the JS guard either fails or copies nothing. -/
def routeMiddlewares (stack : MwStack) (httpMethod : String) : List Handler :=
  let result : List Handler := []
  let result :=
    if (stack "all").isEmpty then result
    else copyFromMiddlewareStackTo result (stack "all")
  if httpMethod != "all" && !(stack httpMethod).isEmpty then
    copyFromMiddlewareStackTo result (stack httpMethod)
  else result

/-- `routeString_(isStar)` (`PathRoutifier.js:596-601`). -/
def routeString (routeStack : List String) (isStar : Bool) : String :=
  let result := "/" ++ String.intercalate "/" routeStack
  if isStar then result ++ "*" else result

/-- `generateRoutes_(sortedRouteInfos)` (`PathRoutifier.js:560-590`): for
each descriptor, build the pattern from the current route stack, resolve the
middleware chain for its method into a fresh flat array, hand that array to
the route factory (which may mutate it and returns the handler chain), and
register pattern, the factory's final middleware array, and the handlers. -/
def generateRoutes (env : ModuleEnv) (sortedRouteInfos : List RouteInfo)
    (s : CState) : CState :=
  sortedRouteInfos.foldl (fun st routeInfo =>
    let pattern := routeString st.routeStack routeInfo.isStar
    let chain := routeMiddlewares st.mwStack routeInfo.httpMethod
    let loaded := env.routeFactory routeInfo.path chain
    { st with emitted := st.emitted ++
        [⟨routeInfo.httpMethod, pattern, loaded.1, loaded.2⟩] }) s

/-! ## The recursive walk

`routifyRecurse_` / `recurseSubDirectories_` recurse mutually through the
directory tree.  The tree is an explicit value: each `routifyRecurse_` call
reads one listing via `dirTools.directoryListing` (the `dir-tools` module —
its source is the second concatenated document of `src/index.tests.js` —
whose `directoryListing` partitions `fs.readdirSync` into the lexically
sorted `files` and `subDirectories`, `.` and `..` excluded), and a tree node
stores the two arrays of one such listing.  The two mutually recursive
source methods become the two constructors of `Job`, interpreted by the
fuel-indexed `run`; fuel only bounds the recursion depth so that the
interpreter is structurally recursive, and `run` is total
(`.error .fuelExhausted`) when fuel runs out. -/

/-- A directory of the routes tree: the `files` and `subDirectories` arrays
of its `directoryListing`, the sub-directories paired with their own
sub-trees. -/
inductive FSTree where
  | node (files : List String) (subDirs : List (String × FSTree))

/-- The two pending-work shapes of the mutual recursion:
`visit` = a `routifyRecurse_(directory, isMiddlewareDirectory)` call,
`subs` = a `recurseSubDirectories_(listing)` call part-way through the
sub-directory list. -/
inductive Job where
  | visit (t : FSTree) (isMiddlewareDirectory : Bool) (dir : List String)
  | subs (l : List (String × FSTree)) (dir : List String)

/-- The recursive walk (`routifyRecurse_`, `handleRouteDirectory_`,
`handleRouteMiddlewareDirectory_`, `recurseSubDirectories_`,
`PathRoutifier.js:341-553`). -/
def run (env : ModuleEnv) : Nat → Job → CState → Except RoutifyError CState
  | 0, _, _ => .error .fuelExhausted
  | fuel + 1, .visit t isMiddlewareDirectory dir, s =>
    match t with
    | .node files subDirs =>
      match sortRouteInfos dir files with
      | .error e => .error e
      | .ok sortedRouteInfos =>
        if isMiddlewareDirectory then
          -- handleRouteMiddlewareDirectory_ (lines 423-439)
          let mwRouteInfos := sortedRouteInfos.filter fun x =>
            !x.numericPrefixed && !x.isStar && !x.middlewarePrefixed
          let s1 := { s with mwStack := pushMwRouteInfosOnStack env mwRouteInfos s.mwStack }
          match run env fuel (.subs subDirs dir) s1 with
          | .error e => .error e
          | .ok s2 => .ok { s2 with mwStack := popMwRouteInfosOffStack mwRouteInfos s2.mwStack }
        else
          -- handleRouteDirectory_ (lines 534-553)
          let mwRouteInfos := sortedRouteInfos.filter fun x => x.middlewarePrefixed
          let normalRouteInfos := sortedRouteInfos.filter fun x => !x.middlewarePrefixed
          let s1 := { s with mwStack := pushMwRouteInfosOnStack env mwRouteInfos s.mwStack }
          let s2 := generateRoutes env normalRouteInfos s1
          match run env fuel (.subs subDirs dir) s2 with
          | .error e => .error e
          | .ok s3 => .ok { s3 with mwStack := popMwRouteInfosOffStack mwRouteInfos s3.mwStack }
  | _ + 1, .subs [] _, s => .ok s
  | fuel + 1, .subs ((name, sub) :: rest) dir, s =>
    -- recurseSubDirectories_ (lines 503-524)
    let nextDir := dir ++ [name]
    -- `subDirectory[0] === '^'` / `'$'` (first-character tests)
    let subDirIsMiddlewareDirectory := name.toList.head? == some '^'
    let subDirIsParam := name.toList.head? == some '$'
    if subDirIsMiddlewareDirectory then
      match run env fuel (.visit sub true nextDir) s with
      | .error e => .error e
      | .ok s2 => run env fuel (.subs rest dir) s2
    else
      let routeChunk := if subDirIsParam then ":" ++ name.drop 1 else name
      let s1 := { s with routeStack := s.routeStack ++ [routeChunk] }
      match run env fuel (.visit sub false nextDir) s1 with
      | .error e => .error e
      | .ok s2 =>
        -- `if (routeChunk) this.routeStack_.pop()`: the chunk of a normal
        -- sub-directory is falsy only when it is the empty string
        run env fuel (.subs rest dir)
          (if routeChunk ≠ "" then { s2 with routeStack := s2.routeStack.dropLast } else s2)

/-- `routifyRecurse_(directory, isMiddlewareDirectory)`. -/
def routifyRecurse (env : ModuleEnv) (fuel : Nat) (t : FSTree)
    (isMiddlewareDirectory : Bool) (dir : List String) (s : CState) :
    Except RoutifyError CState :=
  run env fuel (.visit t isMiddlewareDirectory dir) s

/-- The state `routify` starts the walk from (`PathRoutifier.js:310-311`). -/
def initialState : CState :=
  { mwStack := fun _ => [], routeStack := [], emitted := [] }

/-! ## `generateRoutes_` in closed form (claims C9 and C3) -/

/-- The registration `generateRoutes_` emits for one descriptor given the
middleware stack and route stack it runs under. -/
def registrationFor (env : ModuleEnv) (stack : MwStack) (routeStack : List String)
    (routeInfo : RouteInfo) : Registration :=
  let chain := routeMiddlewares stack routeInfo.httpMethod
  let loaded := env.routeFactory routeInfo.path chain
  ⟨routeInfo.httpMethod, routeString routeStack routeInfo.isStar, loaded.1, loaded.2⟩

/-- Every sub-directory of the tree has a non-empty name — true of every
listing an actual filesystem can produce.  It guarantees that the route chunk
pushed for a normal sub-directory is a non-empty (truthy) string, so the
`if (routeChunk)` pop-guard of `recurseSubDirectories_` always fires. -/
inductive WellNamed : FSTree → Prop where
  | node (files : List String) (subDirs : List (String × FSTree)) :
      (∀ p ∈ subDirs, p.1 ≠ "") → (∀ p ∈ subDirs, WellNamed p.2) →
      WellNamed (.node files subDirs)

/-- Well-formedness of a pending job of the walk. -/
def JobWell : Job → Prop
  | .visit t _ _ => WellNamed t
  | .subs l _ => (∀ p ∈ l, p.1 ≠ "") ∧ ∀ p ∈ l, WellNamed p.2

/-- The module environment whose callables are tagged with the path of the
file whose factory produced them (used to instantiate concrete runs). -/
def envTagged : ModuleEnv :=
  { mwFactory := fun path => [path],
    routeFactory := fun path chain => (chain, [path]) }

/-- Result of a concrete visit used to witness `c3_stack_restoration`. -/
def c3WitnessResult : CState :=
  { mwStack := fun _ => [], routeStack := [],
    emitted := [⟨"get", "/", [], ["get.js"]⟩] }

/-- The routes tree of the round-trip test case:
`/owners/get.js`, `/owners/$id/get.js`, `/^auth/all.js`,
`/^auth/users/get.js` (directories listed in lexical order: `^` < `o`). -/
def roundTripTree : FSTree :=
  .node []
    [("^auth", .node ["all.js"] [("users", .node ["get.js"] [])]),
     ("owners", .node ["get.js"] [("$id", .node ["get.js"] [])])]

/-- A state with two ambient `all` frames, used to demonstrate per-route
mutation isolation. -/
def twoFrameState : CState :=
  { mwStack := fun m => if m = "all" then [["mw1"], ["mw2"]] else [],
    routeStack := [], emitted := [] }

/-- An environment whose factory for `a.js` drops the first entry of the
middleware chain it is handed (modelling a factory that splices an ambient
middleware out of its `routeMiddlewares` array) while the factory for any
other file leaves its chain alone. -/
def envDropFirst : ModuleEnv :=
  { mwFactory := fun path => [path],
    routeFactory := fun path chain =>
      (if path = "a.js" then chain.drop 1 else chain, [path]) }

/-! ## Constructor options (claim C4) -/

/-- The options object callers hand to `new PathRoutifier(app, options)`.
The repository's test suite additionally passes a `methods` allow-list
(`PathRoutifier.tests.js`, "supported methods: get, delete"). -/
structure Options where
  logger : Bool := false
  autoNameAnonymousMiddleware : Bool := false
  methods : Option (List String) := none
deriving Repr, DecidableEq

/-- What the constructor actually stores (`PathRoutifier.js:216-228`):
`this.logger_ = options.logger` and
`this.autoNameAnonymousMiddleware_ = !!options.autoNameAnonymousMiddleware`;
the remaining fields are initialised to `null` independent of `options`. -/
structure ComposerConfig where
  logger : Bool
  autoNameAnonymousMiddleware : Bool
deriving Repr, DecidableEq

/-- The `PathRoutifier` constructor: no trace of `options.methods` is kept. -/
def mkPathRoutifier (options : Options) : ComposerConfig :=
  { logger := options.logger,
    autoNameAnonymousMiddleware := options.autoNameAnonymousMiddleware }

/-! ## `loadMiddlewares` (claims C6, C7, C10)

`loadMiddlewares` builds a nested JS object from the directory structure
under the middlewares root.  JS functions are objects and can carry
properties, and the descent loop
`if (ref[camelName]) ref = ref[camelName] else ref = ref[camelName] = {}`
(lines 250-256) walks through whatever value sits at a key, so a tree node is
either a plain object or a callable with properties. -/

/-- A value in the middleware tree: a plain object, or a loaded middleware
callable (tagged by the path of the file it was loaded from) together with
any properties later hung off it. -/
inductive MwNode where
  | obj (props : List (String × MwNode))
  | func (tag : String) (props : List (String × MwNode))

/-- The property list of a JS object or function. -/
def MwNode.props : MwNode → List (String × MwNode)
  | .obj ps => ps
  | .func _ ps => ps

/-- Replace the property list, keeping the value's identity. -/
def MwNode.withProps : MwNode → List (String × MwNode) → MwNode
  | .obj _, ps => .obj ps
  | .func t _, ps => .func t ps

/-- `typeof ref === 'function'`. -/
def MwNode.isFunc : MwNode → Bool
  | .func _ _ => true
  | .obj _ => false

/-- Property lookup (`ref[camelName]`, absent keys yield `undefined`). -/
def lookupProp (ps : List (String × MwNode)) (key : String) : Option MwNode :=
  match ps with
  | [] => none
  | (k, v) :: rest => if k = key then some v else lookupProp rest key

/-- Property assignment (`ref[key] = v`): overwrite in place, or append a new
key in insertion order. -/
def setProp (ps : List (String × MwNode)) (key : String) (v : MwNode) :
    List (String × MwNode) :=
  match ps with
  | [] => [(key, v)]
  | (k, old) :: rest =>
    if k = key then (k, v) :: rest else (k, old) :: setProp rest key v

/-- A word with its first letter capitalised (`inflection.camelize` on the
second and later underscore-separated words). -/
def capitalizeWord (w : List Char) : List Char :=
  match w with
  | [] => []
  | c :: rest => c.toUpper :: rest

/-- Split at every `-` or `_` (hyphens first replaced by underscores, then
`camelize` splits on `_`), keeping empty segments. -/
def splitSep : List Char → List (List Char)
  | [] => [[]]
  | c :: rest =>
    match splitSep rest with
    | [] => [[c]]
    | w :: ws => if c = '-' || c = '_' then [] :: w :: ws else (c :: w) :: ws

/-- `camelCase_(value)` (`PathRoutifier.js:331-334`):
`inflection.camelize` of the value with hyphens replaced by underscores,
lower-first variant.  For the basenames in
question (no `/`), camelize joins the separator-split words, capitalising the
first letter of every word after the first. -/
def camelCase (value : String) : String :=
  match splitSep value.toList with
  | [] => ""
  | w :: ws => String.mk (w ++ (ws.map capitalizeWord).flatten)

/-- `fileName.endsWith('.js')` (the only file filter of `loadMiddlewares`,
`PathRoutifier.js:269`). -/
def endsWithJs (fileName : String) : Bool :=
  "sj.".toList.isPrefixOf fileName.toList.reverse

/-- Loading the `.js` files of one visited directory into the properties of
the node the descent ended on (`PathRoutifier.js:267-285`): the key is the
camel-cased basename without its `.js` extension, the stored callable is
tagged with the file's path, and an existing value at the key is overwritten. -/
def loadDirFiles (rel : List String) (files : List String)
    (ps : List (String × MwNode)) : List (String × MwNode) :=
  (files.filter endsWithJs).foldl
    (fun acc f =>
      let base := String.mk (f.toList.take (f.toList.length - 3))
      setProp acc (camelCase base) (.func (pathOf rel f) []))
    ps

/-- The `traverseDirectory` callback of `loadMiddlewares`
(`PathRoutifier.js:243-286`), its descent written as recursion on the
remaining relative path segments: look up (or create as `{}`) each
camel-cased segment; if the value finally reached is a function — a
same-named file at a shallower level already claimed the slot — skip the
whole directory with a warning naming the conflicting segment; otherwise load
the directory's files into the node reached. -/
def visitDirGo (rel files : List String) :
    MwNode → List String → MwNode × List String
  | node, [] =>
    match node with
    | .func t ps => (.func t ps, [rel.getLastD ""])
    | .obj ps => (.obj (loadDirFiles rel files ps), [])
  | node, seg :: restSegs =>
    let key := camelCase seg
    match lookupProp node.props key with
    | some child =>
      let r := visitDirGo rel files child restSegs
      (node.withProps (setProp node.props key r.1), r.2)
    | none =>
      let r := visitDirGo rel files (.obj []) restSegs
      (node.withProps (node.props ++ [(key, r.1)]), r.2)

/-- One full visit of the directory at relative path `rel` holding `files`. -/
def visitDir (rel files : List String) (node : MwNode) : MwNode × List String :=
  visitDirGo rel files node rel

/-- `traverseDirectory(directory, callbackFn)` of the `dir-tools` module
(its source is the second concatenated document of `src/index.tests.js`,
lines 92-99; `PathRoutifier.js:201` loads it as `./dir-tools`): obtain the
`directoryListing` of the current directory — `fs.readdirSync` partitioned
into lexically sorted `files` and `subDirectories` — call the visitor with
it, then recurse into `path.resolve(directory, subDirectory)` for each
sub-directory in listing order.

Directories are identified by their path segments relative to the traversal
root; `listDir rel` is the listing `directoryListing` returns there, `none`
when `fs.readdirSync` throws (missing/unreadable path), which aborts the
traversal — the error keeps the errno code `ENOENT` of the thrown exception.
The embedding returns the visited listings, i.e. the arguments of the
`callbackFn` calls in call order, as (relative path segments, files).  Fuel
bounds the recursion depth so the definition is structurally recursive; the
listing is read before fuel is consulted, mirroring the source order. -/
def traverseDirectory (listDir : List String → Option (List String × List String)) :
    Nat → List String → Except String (List (List String × List String))
  | fuel, rel =>
    match listDir rel with
    | none => .error "ENOENT"
    | some listing =>
      match fuel with
      | 0 => .error "out of fuel"
      | fuel + 1 =>
        (listing.2.mapM (fun subDirectory =>
            traverseDirectory listDir fuel (rel ++ [subDirectory]))).map
          (fun results => (rel, listing.1) :: results.flatten)

/-- The fold of the `loadMiddlewares` visitor over the visited listings,
accumulating the `middlewares` object and the warnings logged.  The relative
path segments of a visit are exactly the
`path.relative(middlewaresPath, listing.directory).split(path.sep)` the
callback computes (`PathRoutifier.js:244-246`; empty at the root, where the
callback leaves `directoriesToMiddleware` null and skips the descent). -/
def runMwVisits (visits : List (List String × List String)) : MwNode × List String :=
  visits.foldl
    (fun acc v =>
      let r := visitDir v.1 v.2 acc.1
      (r.1, acc.2 ++ r.2))
    (.obj [], [])

/-- `loadMiddlewares(middlewaresPath)` (`PathRoutifier.js:238-289`).
`listings root rel` is the `directoryListing` of the directory at segments
`rel` beneath the path `root` (`none` when `fs.readdirSync` throws there).
A falsy `middlewaresPath` — `undefined`/`null` (`none`) or the empty
string — short-circuits to the empty tree before any filesystem access; a
truthy path is traversed with `dir-tools.traverseDirectory`.  The
`optIgnorePattern` argument documented and forwarded by `src/index.js:19` is
not in the implementation's parameter list: the body never consults it. -/
def loadMiddlewares (listings : String → List String → Option (List String × List String))
    (middlewaresPath : Option String) (optIgnorePattern : Option (String → Bool))
    (fuel : Nat) : Except String (MwNode × List String) :=
  match middlewaresPath with
  | none => .ok (.obj [], [])
  | some p =>
    if p = "" then .ok (.obj [], [])
    else
      (traverseDirectory (listings p) fuel []).map runMwVisits

/-- Listings of a middlewares root `/mw` holding the single file
`foo.tests.js` — a file in the test-suffix convention that an ignore pattern
ending in `.tests.js` matches. -/
def mwDemoListings (root : String) (rel : List String) :
    Option (List String × List String) :=
  if root = "/mw" then
    match rel with
    | [] => some (["foo.tests.js"], [])
    | _ => none
  else none

/-- The descent of the `loadMiddlewares` visitor, on the normalized path
segments, ends on a callable: i.e. a same-named file at a shallower level
already bound every traversed key and the final one holds a function. -/
def descentReachesCallable : MwNode → List String → Bool
  | node, [] => node.isFunc
  | node, seg :: rest =>
    match lookupProp node.props (camelCase seg) with
    | some child => descentReachesCallable child rest
    | none => false

/-- The tree after loading `misc.js`: the key `misc` is bound to a callable. -/
def c7Tree : MwNode := .obj [("misc", .func "misc.js" [])]

/-- The index loop of `prioritizeStarRouteInfos_`, started at the boundary
between a processed block `done` and an unprocessed suffix `rest`, rewrites
`rest` exactly as the spec's scan-and-swap description does and leaves `done`
untouched. -/
theorem prioritizeGo_eq_spec :
    ∀ (gas : Nat) (rest done : List RouteInfo), rest.length ≤ gas →
      prioritizeGo gas (done ++ rest) done.length = done ++ wildcardReorderSpec rest := by
  intro gas
  induction gas with
  | zero =>
    intro rest done hle
    have hnil : rest = [] := List.eq_nil_of_length_eq_zero (Nat.le_zero.mp hle)
    subst hnil
    simp [prioritizeGo, wildcardReorderSpec]
  | succ gas ih =>
    intro rest done hle
    match rest with
    | [] => simp [prioritizeGo, wildcardReorderSpec]
    | [x] => simp [prioritizeGo, wildcardReorderSpec]
    | x :: y :: rest' =>
      have hlen : done.length + 1 < (done ++ x :: y :: rest').length := by
        simp only [List.length_append, List.length_cons]
        omega
      have hcur : (done ++ x :: y :: rest').get ⟨done.length, Nat.lt_of_succ_lt hlen⟩ = x := by
        simp [List.get_eq_getElem, List.getElem_append_right (Nat.le_refl done.length)]
      have hnext : (done ++ x :: y :: rest').get ⟨done.length + 1, hlen⟩ = y := by
        have h₁ : done.length ≤ done.length + 1 := Nat.le_succ _
        simp [List.get_eq_getElem, List.getElem_append_right h₁]
      simp only [prioritizeGo, hcur, hnext, dif_pos hlen]
      by_cases hsw : needToSwap x y
      · simp only [hsw, if_true]
        have hset : ((done ++ x :: y :: rest').set done.length y).set (done.length + 1) x =
            (done ++ [y, x]) ++ rest' := by
          simp [List.set_append]
        rw [hset]
        have hlen2 : (done ++ [y, x]).length = done.length + 2 := by simp
        have hrec := ih rest' (done ++ [y, x]) (by simp at hle; omega)
        rw [hlen2] at hrec
        rw [hrec]
        simp [wildcardReorderSpec, hsw]
      · simp only [hsw, if_false]
        have hrec := ih (y :: rest') (done ++ [x]) (by simp at hle ⊢; omega)
        have hlen1 : (done ++ [x]).length = done.length + 1 := by simp
        rw [hlen1] at hrec
        have happ : (done ++ [x]) ++ y :: rest' = done ++ x :: y :: rest' := by simp
        rw [happ] at hrec
        rw [hrec]
        simp [wildcardReorderSpec, hsw]

/-! ## Resolved middleware chains (claim C2) -/

/-- Appending one element at a time (`target.push(mw)`) appends the list. -/
theorem foldl_push_eq_append (frame : List Handler) :
    ∀ target : List Handler, frame.foldl (fun t mw => t ++ [mw]) target = target ++ frame := by
  induction frame with
  | nil => intro target; simp
  | cons mw frame ih => intro target; simp [List.foldl_cons, ih]

/-- `copyFromMiddlewareStackTo_` concatenates the frames in push order after
the existing target. -/
theorem copyFromMiddlewareStackTo_eq (middlewareSubStack : List (List Handler)) :
    ∀ target : List Handler,
      copyFromMiddlewareStackTo target middlewareSubStack = target ++ middlewareSubStack.flatten := by
  induction middlewareSubStack with
  | nil => intro target; simp [copyFromMiddlewareStackTo]
  | cons frame stk ih =>
    intro target
    simp only [copyFromMiddlewareStackTo, List.foldl_cons] at *
    rw [foldl_push_eq_append, ih, List.append_assoc, List.flatten_cons]

/-- **C2.** The chain `routeMiddlewares_` resolves for a route equals the
`all`-method frames concatenated in push order, followed — exactly when the
route's method is not `all` — by that method's own frames concatenated in
push order. -/
theorem c2_route_middleware_chain (stack : MwStack) (httpMethod : String) :
    routeMiddlewares stack httpMethod =
      (stack "all").flatten ++
        (if httpMethod = "all" then [] else (stack httpMethod).flatten) := by
  unfold routeMiddlewares
  by_cases hall : (stack "all").isEmpty
  · have hallNil : stack "all" = [] := List.isEmpty_iff.mp hall
    by_cases hm : httpMethod = "all"
    · simp [hall, hm, hallNil]
    · by_cases hme : (stack httpMethod).isEmpty
      · have : stack httpMethod = [] := List.isEmpty_iff.mp hme
        simp [hall, hm, hme, hallNil, this]
      · simp [hall, hm, hme, hallNil, copyFromMiddlewareStackTo_eq]
  · by_cases hm : httpMethod = "all"
    · simp [hall, hm, copyFromMiddlewareStackTo_eq]
    · by_cases hme : (stack httpMethod).isEmpty
      · have : stack httpMethod = [] := List.isEmpty_iff.mp hme
        simp [hall, hm, hme, this, copyFromMiddlewareStackTo_eq]
      · simp [hall, hm, hme, copyFromMiddlewareStackTo_eq]

/-! ## Push/pop discipline of the per-method stack (claim C3) -/

/-- Effect of `pushMwRouteInfosOnStack_` on one method's stack: the frames of
exactly the descriptors for that method are appended, in listing order. -/
theorem pushMwRouteInfosOnStack_apply (env : ModuleEnv) :
    ∀ (mwRouteInfos : List RouteInfo) (stack : MwStack) (m : String),
      pushMwRouteInfosOnStack env mwRouteInfos stack m =
        stack m ++ (mwRouteInfos.filter (fun ri => ri.httpMethod == m)).map
          (fun ri => env.mwFactory ri.path) := by
  intro mwRouteInfos
  induction mwRouteInfos with
  | nil => intro stack m; simp [pushMwRouteInfosOnStack]
  | cons r rest ih =>
    intro stack m
    simp only [pushMwRouteInfosOnStack, List.foldl_cons] at *
    rw [ih]
    by_cases hm : r.httpMethod = m
    · simp [pushMwStack, hm]
    · have hm' : ¬(r.httpMethod == m) = true := by simp [hm]
      simp [pushMwStack, hm, hm', Ne.symm hm]

/-- Effect of `popMwRouteInfosOffStack_` on one method's stack: one
`Array.prototype.pop` (i.e. `dropLast`) per descriptor for that method. -/
theorem popMwRouteInfosOffStack_apply :
    ∀ (mwRouteInfos : List RouteInfo) (stack : MwStack) (m : String),
      popMwRouteInfosOffStack mwRouteInfos stack m =
        (List.dropLast)^[(mwRouteInfos.filter (fun ri => ri.httpMethod == m)).length]
          (stack m) := by
  intro mwRouteInfos
  induction mwRouteInfos with
  | nil => intro stack m; simp [popMwRouteInfosOffStack]
  | cons r rest ih =>
    intro stack m
    simp only [popMwRouteInfosOffStack, List.foldl_cons] at *
    rw [ih]
    by_cases hm : r.httpMethod = m
    · simp only [hm, popMwStack, if_pos rfl, List.filter_cons, beq_self_eq_true, if_true]
      simp [Function.iterate_succ_apply]
    · have hm' : ¬(r.httpMethod == m) = true := by simp [hm]
      simp [popMwStack, hm', Ne.symm hm]

/-- Dropping the last element once per appended element recovers the original
list. -/
theorem dropLast_iterate_append (fr : List (List Handler)) :
    ∀ l : List (List Handler), (List.dropLast)^[fr.length] (l ++ fr) = l := by
  induction fr using List.reverseRecOn with
  | nil => intro l; simp
  | append_singleton fr a ih =>
    intro l
    rw [List.length_append, List.length_singleton]
    have hstep : List.dropLast (l ++ (fr ++ [a])) = l ++ fr := by
      rw [← List.append_assoc, List.dropLast_concat]
    rw [Function.iterate_succ_apply, hstep, ih]

/-- Popping the frames pushed for a directory's middleware files restores the
per-method stack exactly. -/
theorem popMwRouteInfos_pushMwRouteInfos (env : ModuleEnv)
    (mwRouteInfos : List RouteInfo) (stack : MwStack) :
    popMwRouteInfosOffStack mwRouteInfos (pushMwRouteInfosOnStack env mwRouteInfos stack) =
      stack := by
  funext m
  rw [popMwRouteInfosOffStack_apply, pushMwRouteInfosOnStack_apply]
  rw [← List.length_map (f := fun ri => env.mwFactory ri.path)]
  exact dropLast_iterate_append _ (stack m)

/-- Closed form of `generateRoutes_`: the stacks are untouched and each
route's registration is computed from the shared stacks and its own
descriptor alone. -/
theorem generateRoutes_eq (env : ModuleEnv) :
    ∀ (sortedRouteInfos : List RouteInfo) (s : CState),
      generateRoutes env sortedRouteInfos s =
        { s with emitted := s.emitted ++
            sortedRouteInfos.map (registrationFor env s.mwStack s.routeStack) } := by
  intro sortedRouteInfos
  induction sortedRouteInfos with
  | nil => intro s; simp [generateRoutes]
  | cons r rest ih =>
    intro s
    simp only [generateRoutes, List.foldl_cons] at *
    rw [ih]
    simp [registrationFor, List.map_cons]

/-- Projection lemma: `generateRoutes_` never touches the middleware stack. -/
theorem generateRoutes_mwStack (env : ModuleEnv) (l : List RouteInfo) (s : CState) :
    (generateRoutes env l s).mwStack = s.mwStack := by
  rw [generateRoutes_eq]

/-- Projection lemma: `generateRoutes_` never touches the route stack. -/
theorem generateRoutes_routeStack (env : ModuleEnv) (l : List RouteInfo) (s : CState) :
    (generateRoutes env l s).routeStack = s.routeStack := by
  rw [generateRoutes_eq]

/-- Both stacks are restored by every directory visit that completes without
throwing, in either mode, and by every partial sub-directory scan. -/
theorem run_preserves_stacks (env : ModuleEnv) :
    ∀ (fuel : Nat) (job : Job) (s s' : CState), JobWell job →
      run env fuel job s = .ok s' →
        s'.mwStack = s.mwStack ∧ s'.routeStack = s.routeStack := by
  intro fuel
  induction fuel with
  | zero => intro job s s' hw h; simp [run] at h
  | succ fuel ih =>
    intro job s s' hw h
    match job with
    | .visit (.node files subDirs) isMiddlewareDirectory dir =>
      have hsubs : JobWell (.subs subDirs dir) := by
        cases hw with
        | node _ _ hn hs => exact ⟨hn, hs⟩
      simp only [run] at h
      split at h
      · exact absurd h (by simp)
      · split at h
        · -- handleRouteMiddlewareDirectory_
          split at h
          · exact absurd h (by simp)
          · rename_i sortedRouteInfos hsort s2 hrun
            obtain ⟨h1, h2⟩ := ih _ _ _ hsubs hrun
            simp only [Except.ok.injEq] at h
            subst h
            simp only at h1 h2
            refine ⟨?_, h2⟩
            simp only [h1]
            exact popMwRouteInfos_pushMwRouteInfos env _ s.mwStack
        · -- handleRouteDirectory_
          split at h
          · exact absurd h (by simp)
          · rename_i sortedRouteInfos hsort s2 hrun
            obtain ⟨h1, h2⟩ := ih _ _ _ hsubs hrun
            simp only [Except.ok.injEq] at h
            subst h
            rw [generateRoutes_mwStack] at h1
            rw [generateRoutes_routeStack] at h2
            simp only at h1 h2
            refine ⟨?_, h2⟩
            simp only [h1]
            exact popMwRouteInfos_pushMwRouteInfos env _ s.mwStack
    | .subs [] dir =>
      simp only [run, Except.ok.injEq] at h
      subst h
      exact ⟨rfl, rfl⟩
    | .subs ((name, sub) :: rest) dir =>
      have hname : name ≠ "" := hw.1 (name, sub) (List.mem_cons_self _ _)
      have hwsub : WellNamed sub := hw.2 (name, sub) (List.mem_cons_self _ _)
      have hrest : JobWell (.subs rest dir) :=
        ⟨fun p hp => hw.1 p (List.mem_cons_of_mem _ hp),
         fun p hp => hw.2 p (List.mem_cons_of_mem _ hp)⟩
      simp only [run] at h
      split at h
      · -- middleware sub-directory: no route chunk pushed
        split at h
        · exact absurd h (by simp)
        · rename_i s2 hrun
          obtain ⟨h1, h2⟩ := ih (.visit sub true (dir ++ [name])) _ _ hwsub hrun
          obtain ⟨h3, h4⟩ := ih _ _ _ hrest h
          exact ⟨h3.trans h1, h4.trans h2⟩
      · -- normal sub-directory: push the chunk, recurse, pop it
        have hchunk :
            (if (name.toList.head? == some '$') = true
              then ":" ++ name.drop 1 else name) ≠ "" := by
          split
          · intro heq
            have hl := congrArg String.length heq
            rw [String.length_append] at hl
            have hc1 : (":" : String).length = 1 := rfl
            have hc0 : ("" : String).length = 0 := rfl
            omega
          · exact hname
        split at h
        · exact absurd h (by simp)
        · rename_i s2 hrun
          rw [if_pos hchunk] at h
          obtain ⟨h1, h2⟩ := ih (.visit sub false (dir ++ [name])) _ _ hwsub hrun
          obtain ⟨h3, h4⟩ := ih _ _ _ hrest h
          simp only at h1 h2 h3 h4
          refine ⟨h3.trans h1, ?_⟩
          rw [h4, h2]
          exact List.dropLast_concat

/-! ## Claim theorems C1, C3, C5, C9 -/

/-- **C1.** The wildcard-reordering pass of the composer behaves exactly as
specified: scanning the lexically ordered descriptors left to right, it swaps
exactly the adjacent pairs `(current, next)` with `next.isStar`, equal
`httpMethod`, and no numeric or middleware prefix on either side, advancing
past each swapped pair (so no other relative order is disturbed and each
wildcard moves at most one position earlier); in particular sibling files
`get.js` and `get.star.js` come out with the wildcard descriptor first. -/
theorem c1_wildcard_reordering :
    (∀ routeInfos : List RouteInfo,
        prioritizeStarRouteInfos routeInfos = wildcardReorderSpec routeInfos) ∧
      sortRouteInfos [] ["get.js", "get.star.js"] =
        .ok [⟨"get.star.js", "get.star.js", false, false, "get", true⟩,
             ⟨"get.js", "get.js", false, false, "get", false⟩] ∧
      (routifyRecurse envTagged 2 (.node ["get.js", "get.star.js"] []) false []
          initialState).map (fun s => s.emitted.map fun r => (r.httpMethod, r.urlPattern)) =
        .ok [("get", "/*"), ("get", "/")] := by
  refine ⟨?_, rfl, rfl⟩
  intro routeInfos
  have h := prioritizeGo_eq_spec routeInfos.length routeInfos [] (Nat.le_refl _)
  simpa [prioritizeStarRouteInfos] using h

/-- **C3.** A directory visit that completes without throwing — in either
middleware-directory or normal-directory mode — restores both the per-method
middleware stack and the route-segment stack to their values before the
visit. -/
theorem c3_stack_restoration (env : ModuleEnv) (fuel : Nat) (t : FSTree)
    (isMiddlewareDirectory : Bool) (dir : List String) (s s' : CState)
    (hw : WellNamed t)
    (h : routifyRecurse env fuel t isMiddlewareDirectory dir s = .ok s') :
    s'.mwStack = s.mwStack ∧ s'.routeStack = s.routeStack :=
  run_preserves_stacks env fuel (.visit t isMiddlewareDirectory dir) s s' hw h

/-- Witness for **C3** at a concrete directory containing `get.js`. -/
theorem c3_stack_restoration_witness :
    WellNamed (.node ["get.js"] []) ∧
      routifyRecurse envTagged 2 (.node ["get.js"] []) false [] initialState =
        .ok c3WitnessResult ∧
      c3WitnessResult.mwStack = initialState.mwStack ∧
      c3WitnessResult.routeStack = initialState.routeStack := by
  have hw : WellNamed (.node ["get.js"] []) := WellNamed.node _ _ (by simp) (by simp)
  exact ⟨hw, rfl, c3_stack_restoration envTagged 2 (.node ["get.js"] []) false []
    initialState c3WitnessResult hw rfl⟩

/-- **C5.** On the round-trip tree, the walk emits registrations whose URL
patterns are exactly `/users`, `/owners` and `/owners/:id`: the `^auth`
middleware directory contributes no URL segment and no pattern of its own,
`$id` contributes the `:id` parameter segment, and the `/users`
registration's middleware chain contains (here: is exactly) the callable
produced by `^auth/all.js`. -/
theorem c5_round_trip :
    (routifyRecurse envTagged 10 roundTripTree false [] initialState).map
        (fun s => s.emitted.map fun r => (r.httpMethod, r.urlPattern, r.middlewareChain)) =
      .ok [("get", "/users", ["^auth/all.js"]),
           ("get", "/owners", []),
           ("get", "/owners/:id", [])] := rfl

/-- **C9.** `generateRoutes_` in closed form: the stacks are left untouched
and every route's registration — including the middleware chain handed to
its factory — is computed from the shared stacks and its own descriptor
alone, so a factory's mutation of its own chain array reaches only its own
registration.  Concretely, when the factory of `a.js` removes the first
ambient middleware from its chain, the subsequent sibling `b.js` still
receives both frames. -/
theorem c9_mutation_isolation :
    (∀ (env : ModuleEnv) (sortedRouteInfos : List RouteInfo) (s : CState),
        generateRoutes env sortedRouteInfos s =
          { s with emitted := s.emitted ++
              sortedRouteInfos.map (registrationFor env s.mwStack s.routeStack) }) ∧
      (generateRoutes envDropFirst
          [⟨"a.js", "a.js", false, false, "get", false⟩,
           ⟨"b.js", "b.js", false, false, "get", false⟩]
          twoFrameState).emitted =
        [⟨"get", "/", ["mw2"], ["a.js"]⟩,
         ⟨"get", "/", ["mw1", "mw2"], ["b.js"]⟩] := by
  constructor
  · intro env sortedRouteInfos s
    exact generateRoutes_eq env sortedRouteInfos s
  · rfl

/-! ## Claim C8: the invalid marker combination fails fast -/

/-- `Except.map` neither introduces nor removes errors. -/
theorem except_map_error_iff {ε α β : Type} (x : Except ε α) (g : α → β) :
    (∃ e, x.map g = .error e) ↔ ∃ e, x = .error e := by
  cases x <;> simp [Except.map]

/-- `buildRouteInfos` fails exactly when some file of the listing decodes
with both the middleware prefix and the wildcard marker. -/
theorem buildRouteInfos_error_iff (dir : List String) :
    ∀ files : List String,
      (∃ e, buildRouteInfos dir files = .error e) ↔
        ∃ f ∈ files, ∃ ri, decodeFileName dir f = some ri ∧
          ri.middlewarePrefixed = true ∧ ri.isStar = true := by
  intro files
  induction files with
  | nil => simp [buildRouteInfos]
  | cons f rest ih =>
    cases hdec : decodeFileName dir f with
    | none =>
      simp only [buildRouteInfos, hdec]
      rw [ih]
      constructor
      · intro ⟨f', hf', hri⟩
        exact ⟨f', List.mem_cons_of_mem f hf', hri⟩
      · intro ⟨f', hf', ri, hri, hflags⟩
        rcases List.mem_cons.mp hf' with heq | hmem
        · subst heq; rw [hdec] at hri; exact absurd hri (by simp)
        · exact ⟨f', hmem, ri, hri, hflags⟩
    | some ri =>
      by_cases hflag : (ri.middlewarePrefixed && ri.isStar) = true
      · simp only [buildRouteInfos, hdec, hflag, if_true]
        constructor
        · intro _
          refine ⟨f, List.mem_cons_self f rest, ri, hdec, ?_⟩
          simpa using hflag
        · intro _
          exact ⟨.grammar ri.path, rfl⟩
      · simp only [buildRouteInfos, hdec, hflag, Bool.false_eq_true, if_false]
        rw [except_map_error_iff, ih]
        constructor
        · intro ⟨f', hf', hri⟩
          exact ⟨f', List.mem_cons_of_mem f hf', hri⟩
        · intro ⟨f', hf', ri', hri', hflags⟩
          rcases List.mem_cons.mp hf' with heq | hmem
          · subst heq
            rw [hdec] at hri'
            injection hri' with hp
            subst hp
            exact absurd (by simp [hflags.1, hflags.2]) hflag
          · exact ⟨f', hmem, ri', hri', hflags⟩

/-- **C8.** `sortRouteInfos_` throws exactly when some decoded descriptor
combines the middleware prefix with the wildcard marker (files with at most
one of the two markers never raise this error), and a directory containing
`^get.star.js` makes the whole visit abort with that error. -/
theorem c8_invalid_marker_combination :
    (∀ (dir files : List String),
        (∃ e, sortRouteInfos dir files = .error e) ↔
          ∃ f ∈ files, ∃ ri, decodeFileName dir f = some ri ∧
            ri.middlewarePrefixed = true ∧ ri.isStar = true) ∧
      ∀ (env : ModuleEnv) (fuel : Nat) (s : CState),
        run env (fuel + 1) (.visit (.node ["^get.star.js"] []) false []) s =
          .error (.grammar "^get.star.js") := by
  constructor
  · intro dir files
    rw [sortRouteInfos, except_map_error_iff]
    exact buildRouteInfos_error_iff dir files
  · intro env fuel s
    rfl

/-- **C4 (refuted; code bug).** The constructor is oblivious to the `methods`
option — constructing with any allow-list yields exactly the configuration
obtained without one — and the walk registers every decoded verb: with the
allow-list `["get", "delete"]` of the repository's own test suite, a routes
directory holding `get.js` and `post.js` still emits a `post` registration,
a verb outside the list. -/
theorem c4_methods_option_ignored :
    (∀ options : Options,
        mkPathRoutifier options = mkPathRoutifier { options with methods := none }) ∧
      (routifyRecurse envTagged 2 (.node ["get.js", "post.js"] []) false []
          initialState).map (fun s => s.emitted.map fun r => r.httpMethod) =
        .ok ["get", "post"] ∧
      "post" ∉ (["get", "delete"] : List String) := by
  refine ⟨fun options => rfl, rfl, by simp⟩

/-! ## Claim theorems C6, C7, C10 -/

/-- **C6 (refuted; code bug).** The ignore-pattern argument that
`src/index.js` documents and forwards is silently dropped: `loadMiddlewares`
produces the same result whatever pattern is passed, and a file matching the
test-suffix convention (`foo.tests.js`, matched by the supplied
ends-with-`.tests.js` pattern) is loaded into the middleware tree anyway. -/
theorem c6_ignore_pattern_dropped :
    (∀ (listings : String → List String → Option (List String × List String))
        (middlewaresPath : Option String)
        (p₁ p₂ : Option (String → Bool)) (fuel : Nat),
        loadMiddlewares listings middlewaresPath p₁ fuel =
          loadMiddlewares listings middlewaresPath p₂ fuel) ∧
      loadMiddlewares mwDemoListings (some "/mw")
          (some fun f => "sj.stset.".toList.isPrefixOf f.toList.reverse) 1 =
        .ok (.obj [("foo.tests", .func "foo.tests.js" [])], []) := by
  exact ⟨fun listings middlewaresPath p₁ p₂ fuel => rfl, rfl⟩

/-- `ref[key] = v` is the identity when `ref[key]` is already `v`. -/
theorem setProp_lookup_eq (key : String) (v : MwNode) :
    ∀ ps : List (String × MwNode), lookupProp ps key = some v → setProp ps key v = ps := by
  intro ps
  induction ps with
  | nil => intro h; simp [lookupProp] at h
  | cons kv rest ih =>
    obtain ⟨k, v0⟩ := kv
    intro h
    by_cases hk : k = key
    · simp only [lookupProp, hk, if_pos rfl] at h
      injection h with h
      subst h
      simp [setProp, hk]
    · simp only [lookupProp, if_neg hk] at h
      simp [setProp, hk, ih h]

/-- Replacing a node's property list by itself is the identity. -/
theorem withProps_props_self (node : MwNode) : node.withProps node.props = node := by
  cases node <;> rfl

/-- A `loadMiddlewares` visit whose descent (along `segs`) ends on an
already-bound callable leaves the tree exactly unchanged and logs the
conflict warning. -/
theorem visitDirGo_skips_on_callable (rel files : List String) :
    ∀ (segs : List String) (node : MwNode),
      descentReachesCallable node segs = true →
        visitDirGo rel files node segs = (node, [rel.getLastD ""]) := by
  intro segs
  induction segs with
  | nil =>
    intro node h
    cases node with
    | obj ps => simp [descentReachesCallable, MwNode.isFunc] at h
    | func t ps => rfl
  | cons seg rest ih =>
    intro node h
    simp only [descentReachesCallable] at h
    cases hl : lookupProp node.props (camelCase seg) with
    | none => rw [hl] at h; simp at h
    | some child =>
      rw [hl] at h
      simp only [visitDirGo, hl]
      rw [ih child h, setProp_lookup_eq _ _ _ hl, withProps_props_self]

/-- **C7.** Whenever the normalized relative path of a visited directory
descends onto a key already bound to a callable (a same-named file at a
shallower level claimed the slot), the whole visit is skipped with a warning
naming the conflicting segment: none of its files is loaded, the tree — in
particular the callable bound at that key — is left completely unchanged. -/
theorem c7_file_wins_over_directory (rel files : List String) (node : MwNode)
    (h : descentReachesCallable node rel = true) :
    visitDir rel files node = (node, [rel.getLastD ""]) :=
  visitDirGo_skips_on_callable rel files rel node h

/-- Witness for **C7**: visiting a directory `misc` (holding `deep.js`) when
the key `misc` is already a callable changes nothing and warns. -/
theorem c7_file_wins_over_directory_witness :
    descentReachesCallable c7Tree ["misc"] = true ∧
      visitDir ["misc"] ["deep.js"] c7Tree = (c7Tree, ["misc"]) :=
  ⟨rfl, c7_file_wins_over_directory ["misc"] ["deep.js"] c7Tree rfl⟩

/-- **C10.** A falsy middlewares path — `undefined`/`null` or the empty
string — makes `loadMiddlewares` return the empty tree without touching the
filesystem (the result is the same for every filesystem oracle), and an
error is raised only for a truthy path that cannot be listed. -/
theorem c10_falsy_middlewares_path :
    (∀ (listings : String → List String → Option (List String × List String))
        (optIgnorePattern : Option (String → Bool)) (fuel : Nat),
        loadMiddlewares listings none optIgnorePattern fuel = .ok (.obj [], []) ∧
          loadMiddlewares listings (some "") optIgnorePattern fuel = .ok (.obj [], [])) ∧
      ∀ (listings : String → List String → Option (List String × List String))
        (optIgnorePattern : Option (String → Bool)) (fuel : Nat) (p : String),
        p ≠ "" → listings p [] = none →
          loadMiddlewares listings (some p) optIgnorePattern fuel = .error "ENOENT" := by
  constructor
  · intro listings optIgnorePattern fuel
    exact ⟨rfl, rfl⟩
  · intro listings optIgnorePattern fuel p hp hroot
    simp only [loadMiddlewares, if_neg hp, traverseDirectory, hroot, Except.map]

/-- Witness for **C10**: a non-empty path whose root listing fails (as
`fs.readdirSync` does on a missing directory) is reported as an error. -/
theorem c10_falsy_middlewares_path_witness :
    ("/nope" : String) ≠ "" ∧
      (fun (_ : String) (_ : List String) =>
          (none : Option (List String × List String))) "/nope" [] = none ∧
      loadMiddlewares
          (fun _ _ => (none : Option (List String × List String)))
          (some "/nope") none 1 =
        .error "ENOENT" :=
  ⟨by decide, rfl,
    c10_falsy_middlewares_path.2 (fun _ _ => none) none 1 "/nope" (by decide) rfl⟩

end PathRoutify
